import Mathlib

/-!
Verification of the IMAP mailbox-watcher node
(`packages/nodes-base/nodes/EmailReadImap/v1/EmailReadImapV1.node.ts`).

The TypeScript source is shallowly embedded: the per-cycle message loop of
`getNewEmails` (with its dedup filter, high-water-mark update, three output
formats and deferred flagging), the `getText` / `getAttachment` helpers,
`parseRawEmail`, the search-criteria handling of `onMail` /
`establishConnection`, and the readiness gating of `emitError`.
External collaborators (the `@n8n/imap` protocol client, `mailparser`, the
platform JSON parser, the binary-data sink) are modelled as oracles or, where
the spec pins their behaviour, from the spec.
-/

namespace EmailReadImap

/-- A binary attachment handle, as produced by the binary-attachment sink
(`this.helpers.prepareBinaryData`). -/
structure IBinaryData where
  content : String
  fileName : String
  contentType : Option String
  deriving Repr, DecidableEq

/-- One MIME part as yielded by `getParts(message.attributes.struct)`:
`type` / `subtype` are the declared content type, `dispositionType` is
`disposition.type` when a `disposition` object is present,
`dispositionFilename` is `disposition.params.filename`, and `partData` is
the outcome of `connection.getPartData(message, part)` (`none` models a
rejected promise). -/
structure MimePart where
  type : String
  subtype : String
  dispositionType : Option String
  dispositionFilename : String
  partData : Option String
  deriving Repr, DecidableEq

/-- One entry of `message.parts` as returned by the store fetch.  In the
source, `part.body` is dynamically typed: a text payload for the `TEXT` and
whole-message sections, and a header record (`Record<string, string[]>`) for
the `HEADER` section; both are carried here and read according to `which`. -/
structure FetchedPart where
  which : String
  textBody : String
  headerBody : List (String × List String)
  deriving Repr, DecidableEq

/-- A fetched message.  `uid` and `struct` are `message.attributes.uid` and
`message.attributes.struct` (the latter modelled as the flat list of MIME
parts its tree describes); `parts` is `message.parts`. -/
structure Message where
  uid : Nat
  struct : Option (List MimePart)
  parts : List FetchedPart
  deriving Repr, DecidableEq

/-- Output of the external MIME decoder `simpleParser` (mailparser), as far
as `parseRawEmail` consumes it: the raw header lines (key, full line) and the
decoded attachments. -/
structure ParsedAttachment where
  content : String
  filename : String
  contentType : String
  deriving Repr, DecidableEq

/-- See `ParsedAttachment`. -/
structure ParsedEmail where
  headerLines : List (String × String)
  attachments : List ParsedAttachment
  deriving Repr, DecidableEq

/-- The `json` payload of an emitted item, by format. -/
inductive EmailJson where
  | raw (body : String)
  | simple (textHtml : String) (textPlain : String)
      (topLevel : List (String × String)) (metadata : List (String × String))
  | resolved (headers : List (String × String)) (parsed : ParsedEmail)
  deriving Repr, DecidableEq

/-- An emitted item: `json` plus the optional `binary` key map. -/
structure INodeExecutionData where
  json : EmailJson
  binary : Option (List (String × IBinaryData))
  deriving Repr, DecidableEq

/-- Errors a fetch cycle can raise: `parseError` is the thrown
`NodeOperationError`, `typeError` models the JavaScript TypeError raised by
reading `.body` of `undefined` when no `HEADER` part exists, and
`partDataError` models a rejected `getPartData` promise escaping
`Promise.all` in `getAttachment`. -/
inductive ImapError where
  | parseError (msg : String)
  | typeError
  | partDataError
  deriving Repr, DecidableEq

/-- Output format selected by the `format` node parameter. -/
inductive EmailFormat where
  | raw
  | simple
  | resolved
  deriving Repr, DecidableEq

/-- Node parameters consumed by one fetch cycle, plus the `simpleParser`
oracle (`decodeMime`) standing in for the external mailparser decoder. -/
structure NodeConfig where
  format : EmailFormat
  downloadAttachments : Bool
  attachmentPfx : String
  postProcessAction : String
  decodeMime : String → ParsedEmail

/-- Modelled from the spec: the binary-attachment sink collaborator
(`prepareBinaryData`, from `n8n-workflow`, not under `src/`) accepts raw
bytes, filename and content type and returns an opaque handle. -/
def prepareBinaryData (content fileName : String) (contentType : Option String) :
    IBinaryData :=
  ⟨content, fileName, contentType⟩

/-- Modelled from the spec: `getParts` (from the `@n8n/imap` package, not
under `src/`) flattens the structure tree into a part list; per the spec edge
case, an absent structure yields an empty extraction result rather than a
failure. -/
def getParts (struct : Option (List MimePart)) : List MimePart :=
  struct.getD []

/-- JavaScript object assignment `obj[key] = val` on a string-keyed record:
an existing key keeps its position and is overwritten, a new key is appended. -/
def jsObjSet (obj : List (String × String)) (key val : String) :
    List (String × String) :=
  if obj.any (fun kv => kv.1 == key) then
    obj.map (fun kv => if kv.1 == key then (key, val) else kv)
  else
    obj ++ [(key, val)]

/-- Embeds `parseRawEmail` applied to the decoder output: collapses the
header lines into a header record, keys every decoded attachment as
`prefix + index` (zero-based), and sets `binary` only when the resulting
key map is non-empty. -/
def parseRawEmail (responseData : ParsedEmail) (dataPropertyNameDownload : String) :
    INodeExecutionData :=
  let headers := responseData.headerLines.foldl (fun acc h => jsObjSet acc h.1 h.2) []
  let binaryData := responseData.attachments.enum.map
    (fun p => (dataPropertyNameDownload ++ toString p.1,
      prepareBinaryData p.2.content p.2.filename (some p.2.contentType)))
  { json := EmailJson.resolved headers responseData,
    binary := if binaryData.length != 0 then some binaryData else none }

/-- Embeds the JavaScript `toUpperCase()` used in the part filters
(uppercasing each character). -/
def strToUpper (s : String) : String :=
  ⟨s.data.map Char.toUpper⟩

/-- Embeds the `getText` helper: empty string when the structure is absent,
otherwise the first part whose type is `TEXT` and whose subtype matches
(case-insensitively); a missing part or a failing `getPartData` (caught in
the source) also yields the empty string. -/
def getText (parts : List MimePart) (message : Message) (subtype : String) :
    String :=
  if message.struct.isNone then ""
  else
    let textParts := parts.filter (fun part =>
      strToUpper part.type == "TEXT" && strToUpper part.subtype == strToUpper subtype)
    match textParts.head? with
    | none => ""
    | some part =>
      match part.partData with
      | none => ""
      | some partData => partData

/-- Embeds the `getAttachment` helper: empty list when the structure is
absent, otherwise the data of every part carrying an `ATTACHMENT`
disposition; a rejected `getPartData` is not caught there, so it fails the
whole extraction (`none`). -/
def getAttachment (parts : List MimePart) (message : Message) :
    Option (List IBinaryData) :=
  if message.struct.isNone then some []
  else
    let attachmentParts := parts.filter (fun part =>
      match part.dispositionType with
      | some t => strToUpper t == "ATTACHMENT"
      | none => false)
    attachmentParts.mapM (fun part =>
      part.partData.map (fun partData =>
        prepareBinaryData partData part.dispositionFilename none))

/-- The header fields promoted to the top level of a simple-format item. -/
def topLevelProperties : List String :=
  ["cc", "date", "from", "subject", "to"]

/-- Embeds the header-distribution loop of the simple branch: for every
header field with at least one value, its first value goes to the top level
when listed in `topLevelProperties`, otherwise into the metadata map. -/
def distributeHeaders (messageBody : List (String × List String)) :
    List (String × String) × List (String × String) :=
  messageBody.foldl
    (fun acc kv =>
      match kv.2.head? with
      | none => acc
      | some v =>
        if topLevelProperties.contains kv.1 then (acc.1 ++ [(kv.1, v)], acc.2)
        else (acc.1, acc.2 ++ [(kv.1, v)]))
    ([], [])

/-- Embeds the simple-format body of the message loop: extract the html and
plain texts, read the `HEADER` section (reading `.body` of a missing part is
a TypeError), distribute the header fields, and, when attachment download is
enabled, key each extracted attachment as `prefix + index`, setting `binary`
only when at least one attachment was found. -/
def formatSimple (cfg : NodeConfig) (message : Message) :
    Except ImapError INodeExecutionData :=
  let parts := getParts message.struct
  let textHtml := getText parts message "html"
  let textPlain := getText parts message "plain"
  let messageHeader := message.parts.filter (fun part => part.which == "HEADER")
  match messageHeader.head? with
  | none => Except.error ImapError.typeError
  | some headerPart =>
    let distributed := distributeHeaders headerPart.headerBody
    if cfg.downloadAttachments then
      match getAttachment parts message with
      | none => Except.error ImapError.partDataError
      | some attachments =>
        Except.ok
          { json := EmailJson.simple textHtml textPlain distributed.1 distributed.2,
            binary :=
              if attachments.length != 0 then
                some (attachments.enum.map
                  (fun p => (cfg.attachmentPfx ++ toString p.1, p.2)))
              else none }
    else
      Except.ok
        { json := EmailJson.simple textHtml textPlain distributed.1 distributed.2,
          binary := none }

/-- Embeds the per-message formatting of the loop body, by format: resolved
requires the whole-message section (`which` equal to the empty string), raw
requires the `TEXT` section — each throws the `NodeOperationError` with
message `Email part could not be parsed.` when absent — and simple is
`formatSimple`. -/
def formatMessage (cfg : NodeConfig) (message : Message) :
    Except ImapError INodeExecutionData :=
  match cfg.format with
  | EmailFormat.resolved =>
    match message.parts.find? (fun part => part.which == "") with
    | none => Except.error (ImapError.parseError "Email part could not be parsed.")
    | some part =>
      Except.ok (parseRawEmail (cfg.decodeMime part.textBody) cfg.attachmentPfx)
  | EmailFormat.simple => formatSimple cfg message
  | EmailFormat.raw =>
    match message.parts.find? (fun part => part.which == "TEXT") with
    | none => Except.error (ImapError.parseError "Email part could not be parsed.")
    | some part =>
      Except.ok { json := EmailJson.raw part.textBody, binary := none }

/-- The redundant in-code dedup filter at the top of each loop iteration:
skip when a high-water-mark exists and the uid does not exceed it. -/
def dedupSkip (lastMessageUid : Option Nat) (uid : Nat) : Bool :=
  match lastMessageUid with
  | some h => uid ≤ h
  | none => false

/-- The in-loop high-water-mark update: set `staticData.lastMessageUid` to
the uid when the mark is absent or smaller. -/
def hwmUpdate (lastMessageUid : Option Nat) (uid : Nat) : Option Nat :=
  match lastMessageUid with
  | none => some uid
  | some h => if h < uid then some uid else some h

/-- The message loop of `getNewEmails` over the search results, threading
the mutable `staticData.lastMessageUid`: each message is first checked
against the dedup filter, then the mark is advanced, then the message is
formatted; a formatting error aborts the loop at once (the thrown error
propagates), keeping the mark updates already made. Returns the final mark,
the collected items, and the error if one was thrown. -/
def processLoop (cfg : NodeConfig) :
    Option Nat → List Message →
      Option Nat × List INodeExecutionData × Option ImapError
  | lastMessageUid, [] => (lastMessageUid, [], none)
  | lastMessageUid, message :: rest =>
    if dedupSkip lastMessageUid message.uid then
      processLoop cfg lastMessageUid rest
    else
      let lastMessageUid' := hwmUpdate lastMessageUid message.uid
      match formatMessage cfg message with
      | Except.error e => (lastMessageUid', [], some e)
      | Except.ok newEmail =>
        let r := processLoop cfg lastMessageUid' rest
        (r.1, newEmail :: r.2.1, r.2.2)

/-- Observable outcome of one fetch cycle: the items collected for emission,
the committed `staticData.lastMessageUid`, the uid list passed to
`addFlags(..., SEEN)` (empty when flagging is not reached), and the escaped
error if the cycle threw. -/
structure CycleResult where
  newEmails : List INodeExecutionData
  lastMessageUid : Option Nat
  flaggedUids : List Nat
  error : Option ImapError
  deriving Repr

/-- Embeds `getNewEmails` given the store search results: run the message
loop; on an escaped error nothing is emitted and flagging is never reached,
but the mark mutations stand; on completion, when the post-process action is
`read` and the search returned anything, the uids of all search results are
flagged in one request. -/
def getNewEmails (cfg : NodeConfig) (lastMessageUid : Option Nat)
    (results : List Message) : CycleResult :=
  let r := processLoop cfg lastMessageUid results
  match r.2.2 with
  | some e =>
    { newEmails := [], lastMessageUid := r.1, flaggedUids := [], error := some e }
  | none =>
    { newEmails := r.2.1,
      lastMessageUid := r.1,
      flaggedUids :=
        if cfg.postProcessAction == "read" && !results.isEmpty then
          results.map (fun m => m.uid)
        else [],
      error := none }

/-- One element of the `searchCriteria` array: a plain criterion string such
as `UNSEEN`, or the two-element tuple criterion selecting uids from `lo`
upward (the source string `lo:*`). -/
inductive SearchCriterion where
  | str (s : String)
  | uidRange (lo : Nat)
  deriving Repr, DecidableEq

/-- Embeds the criteria handling at the top of `onMail`: when a
high-water-mark exists, a `UID lo:*` criterion is pushed onto the
`searchCriteria` array captured by the closure (the array itself is
mutated, so the push survives into later notifications). -/
def onMailPushCriteria (searchCriteria : List SearchCriterion)
    (lastMessageUid : Option Nat) : List SearchCriterion :=
  match lastMessageUid with
  | some h => searchCriteria ++ [SearchCriterion.uidRange h]
  | none => searchCriteria

/-- The effective criteria passed to the store-side search after a sequence
of new-mail notifications, each seeing the high-water-mark current at its
time: the pushes accumulate on the one shared array. -/
def runNotifications (base : List SearchCriterion)
    (marks : List (Option Nat)) : List SearchCriterion :=
  marks.foldl onMailPushCriteria base

/-- The observable actions of `establishConnection` relevant to startup
ordering: parsing the custom criteria and calling `imapConnect`. -/
inductive ConnAction where
  | parseCriteria
  | imapConnect
  deriving Repr, DecidableEq

/-- Embeds the start of `establishConnection`: when the `customEmailConfig`
option is present it is parsed first (`jsonParse` is the platform
`JSON.parse` oracle), and a parse failure throws the configuration error
before `imapConnect` is ever reached; otherwise the default `UNSEEN`
criteria is used and the connection proceeds.  Returns the action trace and
either the effective base criteria or the thrown error message. -/
def establishConnectionStart (jsonParse : String → Option (List SearchCriterion))
    (customEmailConfig : Option String) :
    List ConnAction × Except String (List SearchCriterion) :=
  match customEmailConfig with
  | none => ([ConnAction.imapConnect], Except.ok [SearchCriterion.str "UNSEEN"])
  | some s =>
    match jsonParse s with
    | none =>
      ([ConnAction.parseCriteria],
        Except.error "Custom email config is not valid JSON.")
    | some crits =>
      ([ConnAction.parseCriteria, ConnAction.imapConnect], Except.ok crits)

/-- Where an `emitError` call originated: the fetch-cycle catch inside
`onMail`, or the connection error handler installed on the socket. -/
inductive EmitOrigin where
  | fetch
  | conn
  deriving Repr, DecidableEq

/-- Asynchronous events of one watcher lifetime, in the order they occur:
the resolution of the deferred returned-promise at the end of `trigger`, a
fetch cycle failing inside `onMail`, a fatal (non-transient) connection
error, and a transient connection error (with the outcome of the reconnect
attempt). -/
inductive WatcherEvent where
  | resolveReady
  | fetchFailure
  | connFatalError
  | connTransientError (reconnectOk : Bool)
  deriving Repr, DecidableEq

/-- Watcher state for error delivery: whether the returned promise has
resolved, how many fetch errors are parked on `returnedPromise.promise.then`
awaiting it, and the `emitError` calls made so far, each tagged with its
origin and whether readiness had been signalled when it was delivered. -/
structure WatcherSt where
  ready : Bool
  pendingFetch : Nat
  emits : List (EmitOrigin × Bool)
  deriving Repr, DecidableEq

/-- One watcher event step.  A fetch failure awaits the returned promise, so
it is parked until resolution (and delivered after it, hence ready); a fatal
connection error calls `emitError` directly in the handler, with no gate on
readiness; a transient error only reconnects (and on a failed reconnect only
logs), never emitting. -/
def watcherStep (st : WatcherSt) : WatcherEvent → WatcherSt
  | WatcherEvent.resolveReady =>
    { ready := true, pendingFetch := 0,
      emits := st.emits ++ List.replicate st.pendingFetch (EmitOrigin.fetch, true) }
  | WatcherEvent.fetchFailure =>
    if st.ready then { st with emits := st.emits ++ [(EmitOrigin.fetch, true)] }
    else { st with pendingFetch := st.pendingFetch + 1 }
  | WatcherEvent.connFatalError =>
    { st with emits := st.emits ++ [(EmitOrigin.conn, st.ready)] }
  | WatcherEvent.connTransientError _ => st

/-- Run a watcher lifetime from the initial (not yet ready) state. -/
def runWatcher (events : List WatcherEvent) : WatcherSt :=
  events.foldl watcherStep { ready := false, pendingFetch := 0, emits := [] }

/-- The committed high-water-mark after a sequence of fetch cycles, each
feeding the next (the batches are the per-cycle store search results). -/
def runCyclesHwm (cfg : NodeConfig) (lastMessageUid : Option Nat) :
    List (List Message) → Option Nat
  | [] => lastMessageUid
  | batch :: batches =>
    runCyclesHwm cfg (getNewEmails cfg lastMessageUid batch).lastMessageUid batches

/-- Whether every cycle of the sequence completed without a thrown error. -/
def runCyclesOk (cfg : NodeConfig) (lastMessageUid : Option Nat) :
    List (List Message) → Bool
  | [] => true
  | batch :: batches =>
    (getNewEmails cfg lastMessageUid batch).error.isNone &&
      runCyclesOk cfg (getNewEmails cfg lastMessageUid batch).lastMessageUid batches

/-- Specification-side maximum uid of a message list: `none` for the empty
list, otherwise the maximum of all uids. -/
def maxUid : List Message → Option Nat
  | [] => none
  | m :: rest => some (rest.foldl (fun a x => Nat.max a x.uid) m.uid)

/-! ### Basic lemmas about the cycle embedding -/

theorem hwmUpdate_some (a u : Nat) : hwmUpdate (some a) u = some (Nat.max a u) := by
  simp only [hwmUpdate, Nat.max_def]
  split <;> split <;> (congr 1) <;> omega

theorem hwmUpdate_of_skip (lastMessageUid : Option Nat) (u : Nat)
    (h : dedupSkip lastMessageUid u = true) : hwmUpdate lastMessageUid u = lastMessageUid := by
  cases lastMessageUid with
  | none => simp [dedupSkip] at h
  | some a =>
    simp only [dedupSkip, decide_eq_true_eq] at h
    simp only [hwmUpdate]
    split
    · omega
    · rfl

theorem getNewEmails_lastMessageUid (cfg : NodeConfig) (lastMessageUid : Option Nat)
    (results : List Message) :
    (getNewEmails cfg lastMessageUid results).lastMessageUid =
      (processLoop cfg lastMessageUid results).1 := by
  unfold getNewEmails
  cases h : (processLoop cfg lastMessageUid results).2.2 <;> simp [h]

theorem getNewEmails_error (cfg : NodeConfig) (lastMessageUid : Option Nat)
    (results : List Message) :
    (getNewEmails cfg lastMessageUid results).error =
      (processLoop cfg lastMessageUid results).2.2 := by
  unfold getNewEmails
  cases h : (processLoop cfg lastMessageUid results).2.2 <;> simp [h]

theorem getNewEmails_newEmails (cfg : NodeConfig) (lastMessageUid : Option Nat)
    (results : List Message) :
    (getNewEmails cfg lastMessageUid results).newEmails =
      (match (processLoop cfg lastMessageUid results).2.2 with
        | some _ => []
        | none => (processLoop cfg lastMessageUid results).2.1) := by
  unfold getNewEmails
  cases h : (processLoop cfg lastMessageUid results).2.2 <;> simp [h]

/-- Removing from the search results every message whose uid is at most some
bound below the current mark does not change the loop outcome at all: such
messages are skipped by the in-code dedup filter. -/
theorem processLoop_filter_below (cfg : NodeConfig) (h₀ : Nat) :
    ∀ (msgs : List Message) (h : Nat), h₀ ≤ h →
      processLoop cfg (some h) msgs =
        processLoop cfg (some h) (msgs.filter (fun m => decide (h₀ < m.uid))) := by
  intro msgs
  induction msgs with
  | nil => intro h _; rfl
  | cons m rest ih =>
    intro h hle
    by_cases hm : h₀ < m.uid
    · rw [List.filter_cons_of_pos (by simpa using hm)]
      by_cases hskip : m.uid ≤ h
      · simp only [processLoop, dedupSkip, decide_eq_true_eq]
        rw [if_pos hskip, if_pos hskip]
        exact ih h hle
      · simp only [processLoop, dedupSkip, decide_eq_true_eq]
        rw [if_neg hskip, if_neg hskip, hwmUpdate_some]
        cases hf : formatMessage cfg m with
        | error e => rfl
        | ok newEmail =>
          have := ih (Nat.max h m.uid) (Nat.le_trans hle (Nat.le_max_left h m.uid))
          simp only [this]
    · rw [List.filter_cons_of_neg (by simpa using hm)]
      have hskip : m.uid ≤ h := Nat.le_trans (Nat.le_of_not_lt hm) hle
      simp only [processLoop, dedupSkip, decide_eq_true_eq]
      rw [if_pos hskip]
      exact ih h hle

/-- C1: within one fetch cycle, whatever the configured output format, no
event is emitted for a message whose uid is at most the high-water-mark held
at the start of the cycle: the emitted batch is unchanged when all such
messages are removed from the store-side search results, because the
redundant in-code filter skips them even when the store returned them. -/
theorem dedup_no_reemit_below_start_hwm (cfg : NodeConfig) (h : Nat)
    (msgs : List Message) :
    (getNewEmails cfg (some h) msgs).newEmails =
      (getNewEmails cfg (some h) (msgs.filter (fun m => decide (h < m.uid)))).newEmails := by
  rw [getNewEmails_newEmails, getNewEmails_newEmails,
    ← processLoop_filter_below cfg h msgs h (Nat.le_refl h)]

/-! ### Concrete fixtures -/

def decodeMimeEmpty : String → ParsedEmail := fun _ => ⟨[], []⟩

def cfgResolvedRead : NodeConfig :=
  ⟨EmailFormat.resolved, false, "attachment_", "read", decodeMimeEmpty⟩

def cfgRawRead : NodeConfig :=
  ⟨EmailFormat.raw, false, "attachment_", "read", decodeMimeEmpty⟩

def cfgSimpleRead : NodeConfig :=
  ⟨EmailFormat.simple, false, "attachment_", "read", decodeMimeEmpty⟩

def cfgSimpleDownload : NodeConfig :=
  ⟨EmailFormat.simple, true, "attachment_", "read", decodeMimeEmpty⟩

def msgOkResolved : Message := ⟨1, some [], [⟨"", "raw body", []⟩]⟩

def msgNoParts : Message := ⟨2, some [], []⟩

def msgRawLow : Message := ⟨3, some [], [⟨"TEXT", "b", []⟩]⟩

def msgNoHeader : Message := ⟨1, none, []⟩

def msgHeaderOnly : Message := ⟨7, none, [⟨"HEADER", "", [("subject", ["hi"])]⟩]⟩

/-- C2 counterexample: with the resolved format and post-process action
`read`, a batch whose second message lacks the whole-message part makes the
cycle throw the parse error, yet the committed `staticData.lastMessageUid`
has already been advanced to the failing message's uid (2) instead of
keeping its pre-cycle value (`none`), so the next cycle does not retry the
same range. -/
theorem parse_error_advances_hwm_cex :
    (getNewEmails cfgResolvedRead none [msgOkResolved, msgNoParts]).error
        = some (ImapError.parseError "Email part could not be parsed.")
    ∧ (getNewEmails cfgResolvedRead none [msgOkResolved, msgNoParts]).lastMessageUid
        = some 2
    ∧ (some 2 : Option Nat) ≠ none := by
  refine ⟨rfl, rfl, by decide⟩

/-- C2 amended: if formatting any message of a fetch cycle fails, the whole
cycle aborts with no events emitted and no message flagged as read, but the
high-water-mark keeps the advances already made for messages processed up to
and including the failing one, so the next cycle does not retry them. -/
theorem parse_error_aborts_without_flagging (cfg : NodeConfig)
    (lastMessageUid : Option Nat) (msgs : List Message)
    (herr : (getNewEmails cfg lastMessageUid msgs).error.isSome = true) :
    (getNewEmails cfg lastMessageUid msgs).newEmails = []
    ∧ (getNewEmails cfg lastMessageUid msgs).flaggedUids = [] := by
  unfold getNewEmails at herr ⊢
  cases h : (processLoop cfg lastMessageUid msgs).2.2 <;> simp [h] at herr ⊢

/-- Witness for the amended C2 at the counterexample input. -/
theorem parse_error_aborts_without_flagging_witness :
    (getNewEmails cfgResolvedRead none [msgOkResolved, msgNoParts]).newEmails = []
    ∧ (getNewEmails cfgResolvedRead none [msgOkResolved, msgNoParts]).flaggedUids = [] :=
  parse_error_aborts_without_flagging cfgResolvedRead none [msgOkResolved, msgNoParts]
    (by decide)

/-! ### The high-water-mark across cycles -/

theorem processLoop_hwm_of_ok (cfg : NodeConfig) :
    ∀ (msgs : List Message) (lastMessageUid : Option Nat),
      (processLoop cfg lastMessageUid msgs).2.2 = none →
      (processLoop cfg lastMessageUid msgs).1 =
        msgs.foldl (fun a m => hwmUpdate a m.uid) lastMessageUid := by
  intro msgs
  induction msgs with
  | nil => intro lastMessageUid _; rfl
  | cons m rest ih =>
    intro lastMessageUid hok
    by_cases hskip : dedupSkip lastMessageUid m.uid = true
    · simp only [processLoop, if_pos hskip] at hok ⊢
      rw [List.foldl_cons, hwmUpdate_of_skip lastMessageUid m.uid hskip]
      exact ih lastMessageUid hok
    · simp only [processLoop, if_neg hskip] at hok ⊢
      cases hf : formatMessage cfg m with
      | error e => rw [hf] at hok; simp at hok
      | ok newEmail =>
        rw [hf] at hok
        simp only at hok
        rw [List.foldl_cons]
        exact ih (hwmUpdate lastMessageUid m.uid) hok

theorem processLoop_hwm_mono (cfg : NodeConfig) :
    ∀ (msgs : List Message) (h : Nat),
      ∃ h', (processLoop cfg (some h) msgs).1 = some h' ∧ h ≤ h' := by
  intro msgs
  induction msgs with
  | nil => intro h; exact ⟨h, rfl, Nat.le_refl h⟩
  | cons m rest ih =>
    intro h
    by_cases hskip : dedupSkip (some h) m.uid = true
    · simp only [processLoop, if_pos hskip]
      exact ih h
    · simp only [processLoop, if_neg hskip, hwmUpdate_some]
      cases hf : formatMessage cfg m with
      | error e => exact ⟨Nat.max h m.uid, rfl, Nat.le_max_left h m.uid⟩
      | ok newEmail =>
        obtain ⟨h', hh', hle⟩ := ih (Nat.max h m.uid)
        exact ⟨h', hh', Nat.le_trans (Nat.le_max_left h m.uid) hle⟩

theorem foldl_hwmUpdate_some (msgs : List Message) :
    ∀ (a : Nat),
      msgs.foldl (fun acc m => hwmUpdate acc m.uid) (some a) =
        some (msgs.foldl (fun acc m => Nat.max acc m.uid) a) := by
  induction msgs with
  | nil => intro a; rfl
  | cons m rest ih =>
    intro a
    rw [List.foldl_cons, List.foldl_cons, hwmUpdate_some]
    exact ih (Nat.max a m.uid)

theorem foldl_hwmUpdate_none (msgs : List Message) :
    msgs.foldl (fun acc m => hwmUpdate acc m.uid) none = maxUid msgs := by
  cases msgs with
  | nil => rfl
  | cons m rest =>
    rw [List.foldl_cons]
    show rest.foldl (fun acc m => hwmUpdate acc m.uid) (some m.uid) = maxUid (m :: rest)
    rw [foldl_hwmUpdate_some]
    rfl

theorem maxUid_eq_foldl_map (m : Message) (rest : List Message) :
    maxUid (m :: rest) = some (((m :: rest).map (fun x => x.uid)).foldl Nat.max 0) := by
  simp only [maxUid, List.map_cons, List.foldl_cons, List.foldl_map, Nat.zero_max]

theorem runCyclesHwm_eq_foldl (cfg : NodeConfig) :
    ∀ (batches : List (List Message)) (lastMessageUid : Option Nat),
      runCyclesOk cfg lastMessageUid batches = true →
      runCyclesHwm cfg lastMessageUid batches =
        (batches.flatten).foldl (fun a m => hwmUpdate a m.uid) lastMessageUid := by
  intro batches
  induction batches with
  | nil => intro lastMessageUid _; rfl
  | cons batch batches ih =>
    intro lastMessageUid hok
    simp only [runCyclesOk, Bool.and_eq_true] at hok
    simp only [runCyclesHwm, List.flatten_cons, List.foldl_append]
    rw [ih _ hok.2]
    congr 1
    rw [getNewEmails_lastMessageUid]
    apply processLoop_hwm_of_ok
    rw [getNewEmails_error] at hok
    exact Option.isNone_iff_eq_none.mp hok.1

/-- C3: the committed high-water-mark never decreases across fetch cycles;
starting from no mark, after any sequence of completed cycles it equals the
maximum uid among all messages the store returned across those cycles; and
that maximum is independent of the order in which the store returned the
messages. -/
theorem hwm_monotone_eq_max (cfg : NodeConfig) (batches : List (List Message))
    (hok : runCyclesOk cfg none batches = true) :
    runCyclesHwm cfg none batches = maxUid batches.flatten
    ∧ (∀ (msgs : List Message) (h : Nat),
        ∃ h', (getNewEmails cfg (some h) msgs).lastMessageUid = some h' ∧ h ≤ h')
    ∧ (∀ l₁ l₂ : List Message, l₁.Perm l₂ → maxUid l₁ = maxUid l₂) := by
  refine ⟨?_, ?_, ?_⟩
  · rw [runCyclesHwm_eq_foldl cfg batches none hok, foldl_hwmUpdate_none]
  · intro msgs h
    rw [getNewEmails_lastMessageUid]
    exact processLoop_hwm_mono cfg msgs h
  · intro l₁ l₂ hperm
    cases l₁ with
    | nil =>
      cases l₂ with
      | nil => rfl
      | cons b r₂ => exact (List.cons_ne_nil b r₂ hperm.symm.eq_nil).elim
    | cons a r₁ =>
      cases l₂ with
      | nil => exact (List.cons_ne_nil a r₁ hperm.eq_nil).elim
      | cons b r₂ =>
        rw [maxUid_eq_foldl_map, maxUid_eq_foldl_map]
        haveI : RightCommutative Nat.max := ⟨fun c a₁ a₂ => by
          simp only [Nat.max_def]
          repeat' split
          all_goals omega⟩
        exact congrArg some ((hperm.map (fun x => x.uid)).foldl_eq 0)

/-- Witness for C3 on a batch returned out of order: cycles [[9, 5, 7]] then
[[6]] complete and the mark ends at 9. -/
theorem hwm_monotone_eq_max_witness :
    runCyclesHwm cfgRawRead none
        [[⟨9, some [], [⟨"TEXT", "a", []⟩]⟩, ⟨5, some [], [⟨"TEXT", "b", []⟩]⟩,
          ⟨7, some [], [⟨"TEXT", "c", []⟩]⟩], [⟨6, some [], [⟨"TEXT", "d", []⟩]⟩]] =
      maxUid ([[⟨9, some [], [⟨"TEXT", "a", []⟩]⟩, ⟨5, some [], [⟨"TEXT", "b", []⟩]⟩,
          ⟨7, some [], [⟨"TEXT", "c", []⟩]⟩], [⟨6, some [], [⟨"TEXT", "d", []⟩]⟩]] :
            List (List Message)).flatten :=
  (hwm_monotone_eq_max cfgRawRead
    [[⟨9, some [], [⟨"TEXT", "a", []⟩]⟩, ⟨5, some [], [⟨"TEXT", "b", []⟩]⟩,
      ⟨7, some [], [⟨"TEXT", "c", []⟩]⟩], [⟨6, some [], [⟨"TEXT", "d", []⟩]⟩]]
    (by decide)).1

/-! ### Flagging -/

/-- C4 counterexample: with post-process action `read` and a mark of 5, a
search result whose single message has uid 3 is skipped by the dedup filter
and emits nothing, yet its uid is still passed to `addFlags`: messages never
successfully emitted are marked read. -/
theorem flagging_includes_skipped_cex :
    (getNewEmails cfgRawRead (some 5) [msgRawLow]).newEmails = []
    ∧ (getNewEmails cfgRawRead (some 5) [msgRawLow]).flaggedUids = [3] := by
  refine ⟨rfl, rfl⟩

/-- C4 amended: when the cycle completes without error, flagging happens
once at batch end in a single request, and the uids flagged are those of all
messages the store search returned — including messages skipped by the dedup
filter and therefore never emitted; nothing is flagged on an aborted cycle
or an empty search result. -/
theorem flags_all_search_results (cfg : NodeConfig) (lastMessageUid : Option Nat)
    (results : List Message) :
    (getNewEmails cfg lastMessageUid results).flaggedUids =
      if (getNewEmails cfg lastMessageUid results).error.isNone
          && (cfg.postProcessAction == "read") && !results.isEmpty then
        results.map (fun m => m.uid)
      else [] := by
  unfold getNewEmails
  cases h : (processLoop cfg lastMessageUid results).2.2 <;> simp [h]

/-! ### Search criteria accumulation in onMail -/

/-- C5 counterexample: after a first notification handled with mark 5 and a
second with mark 9, the criteria passed to the store search on the second
notification is the base plus two UID constraints — the stale one pushed by
the first notification is still there — not the base plus exactly one. -/
theorem criteria_accumulates_cex :
    runNotifications [SearchCriterion.str "UNSEEN"] [some 5, some 9] =
        [SearchCriterion.str "UNSEEN", SearchCriterion.uidRange 5,
          SearchCriterion.uidRange 9]
    ∧ runNotifications [SearchCriterion.str "UNSEEN"] [some 5, some 9] ≠
        [SearchCriterion.str "UNSEEN", SearchCriterion.uidRange 9] := by
  refine ⟨rfl, by decide⟩

/-- C5 amended: each handled notification that sees a high-water-mark pushes
one more UID range onto the shared criteria array, so the effective criteria
equals the configured base criteria followed by one UID constraint per such
notification (each built from the mark current at its time), accumulating
across the watcher's lifetime. -/
theorem criteria_base_plus_pushed_marks (base : List SearchCriterion)
    (marks : List (Option Nat)) :
    runNotifications base marks =
      base ++ marks.filterMap (fun h => h.map SearchCriterion.uidRange) := by
  induction marks generalizing base with
  | nil => simp [runNotifications]
  | cons m rest ih =>
    cases m with
    | none =>
      show runNotifications base rest = _
      rw [ih base]
      rfl
    | some h =>
      show runNotifications (base ++ [SearchCriterion.uidRange h]) rest = _
      rw [ih (base ++ [SearchCriterion.uidRange h])]
      simp [List.filterMap_cons]

/-! ### Error delivery and readiness -/

/-- C6 counterexample: a fatal connection error arriving before the
returned promise resolves is emitted at once by the connection error
handler, with readiness still false — an error reaches the caller before the
watcher has signaled it is fully started. -/
theorem conn_error_before_ready_cex :
    (runWatcher [WatcherEvent.connFatalError]).emits = [(EmitOrigin.conn, false)]
    ∧ ((runWatcher [WatcherEvent.connFatalError]).emits.all (fun p => p.2)) = false := by
  refine ⟨rfl, rfl⟩

/-- Every emit recorded so far being fetch-gated is preserved by any further
watcher events. -/
theorem watcherStep_preserves_gated :
    ∀ (events : List WatcherEvent) (st : WatcherSt),
      (st.emits.all (fun p => p.1 == EmitOrigin.conn || p.2)) = true →
      ((events.foldl watcherStep st).emits.all
          (fun p => p.1 == EmitOrigin.conn || p.2)) = true := by
  intro events
  induction events with
  | nil => intro st h; exact h
  | cons ev rest ih =>
    intro st h
    rw [List.foldl_cons]
    apply ih
    cases ev with
    | resolveReady =>
      simp only [watcherStep, List.all_append, h, Bool.true_and]
      rw [List.all_eq_true]
      intro p hp
      rw [List.eq_of_mem_replicate hp]
      rfl
    | fetchFailure =>
      by_cases hr : st.ready
      · simp only [watcherStep, if_pos hr, List.all_append, h, Bool.true_and]
        rfl
      · simp only [watcherStep, if_neg hr]
        exact h
    | connFatalError =>
      simp only [watcherStep, List.all_append, h, Bool.true_and]
      rfl
    | connTransientError ok => exact h

/-- C6 amended: only errors from fetch cycles are gated behind readiness
(every fetch-origin `emitError` is delivered with the returned promise
already resolved); errors raised by the connection error handler are emitted
immediately and can reach the caller before readiness. -/
theorem fetch_errors_emitted_after_ready (events : List WatcherEvent) :
    ((runWatcher events).emits.all (fun p => p.1 == EmitOrigin.conn || p.2)) = true := by
  exact watcherStep_preserves_gated events ⟨false, 0, []⟩ rfl

/-! ### Custom criteria configuration errors -/

/-- C7: a `customEmailConfig` value the JSON parser rejects makes watcher
start throw the configuration error `Custom email config is not valid JSON.`
and `imapConnect` never appears in the startup action trace: the failure
precedes any connection attempt. -/
theorem invalid_json_fails_before_connect
    (jsonParse : String → Option (List SearchCriterion)) (s : String)
    (h : jsonParse s = none) :
    (establishConnectionStart jsonParse (some s)).2 =
        Except.error "Custom email config is not valid JSON."
    ∧ ConnAction.imapConnect ∉ (establishConnectionStart jsonParse (some s)).1 := by
  simp [establishConnectionStart, h]

/-- Witness for C7 at the spec scenario input: the literal string
`not valid json` with a parser that rejects it. -/
theorem invalid_json_fails_before_connect_witness :
    (establishConnectionStart (fun _ => none) (some "not valid json")).2 =
        Except.error "Custom email config is not valid JSON."
    ∧ ConnAction.imapConnect ∉
        (establishConnectionStart (fun _ => none) (some "not valid json")).1 :=
  invalid_json_fails_before_connect (fun _ => none) "not valid json" rfl

/-! ### Missing required body parts -/

theorem processLoop_head_error (cfg : NodeConfig) (lastMessageUid : Option Nat)
    (m : Message) (rest : List Message) (e : ImapError)
    (hskip : dedupSkip lastMessageUid m.uid = false)
    (hf : formatMessage cfg m = Except.error e) :
    (processLoop cfg lastMessageUid (m :: rest)).2.2 = some e := by
  simp only [processLoop, hskip, Bool.false_eq_true, if_false, hf]

/-- C8 counterexample: in the simple format, a message with no `HEADER`
section makes the cycle fail by reading `.body` of `undefined` — a generic
type error, not the `NodeOperationError` with message
`Email part could not be parsed.` the claim requires for every format. -/
theorem simple_missing_header_type_error_cex :
    (getNewEmails cfgSimpleRead none [msgNoHeader]).error = some ImapError.typeError
    ∧ (getNewEmails cfgSimpleRead none [msgNoHeader]).error ≠
        some (ImapError.parseError "Email part could not be parsed.") := by
  refine ⟨rfl, by decide⟩

/-- C8 amended: when the first processed (non-skipped) message lacks its
required section, the cycle fails — with the parse error
`Email part could not be parsed.` for the resolved format (whole-message
section, `which` empty) and the raw format (`TEXT` section), but with a
generic type error (an undefined-property access) for the simple format when
the `HEADER` section is missing; missing text parts in the simple format do
not fail at all (they yield empty strings, see the structure-absent case). -/
theorem missing_part_error_by_format (cfg : NodeConfig)
    (lastMessageUid : Option Nat) (m : Message) (rest : List Message)
    (hskip : dedupSkip lastMessageUid m.uid = false) :
    (cfg.format = EmailFormat.resolved →
        m.parts.find? (fun part => part.which == "") = none →
        (getNewEmails cfg lastMessageUid (m :: rest)).error =
          some (ImapError.parseError "Email part could not be parsed."))
    ∧ (cfg.format = EmailFormat.raw →
        m.parts.find? (fun part => part.which == "TEXT") = none →
        (getNewEmails cfg lastMessageUid (m :: rest)).error =
          some (ImapError.parseError "Email part could not be parsed."))
    ∧ (cfg.format = EmailFormat.simple →
        m.parts.filter (fun part => part.which == "HEADER") = [] →
        (getNewEmails cfg lastMessageUid (m :: rest)).error =
          some ImapError.typeError) := by
  refine ⟨?_, ?_, ?_⟩
  · intro hfmt hfind
    rw [getNewEmails_error]
    apply processLoop_head_error cfg lastMessageUid m rest _ hskip
    simp only [formatMessage, hfmt, hfind]
  · intro hfmt hfind
    rw [getNewEmails_error]
    apply processLoop_head_error cfg lastMessageUid m rest _ hskip
    simp only [formatMessage, hfmt, hfind]
  · intro hfmt hfilter
    rw [getNewEmails_error]
    apply processLoop_head_error cfg lastMessageUid m rest _ hskip
    simp only [formatMessage, hfmt, formatSimple, hfilter, List.head?_nil]

/-- Witness for the amended C8: a resolved-format cycle over a message with
no parts fails with the parse error. -/
theorem missing_part_error_by_format_witness :
    (getNewEmails cfgResolvedRead none [msgNoParts]).error =
      some (ImapError.parseError "Email part could not be parsed.") :=
  (missing_part_error_by_format cfgResolvedRead none msgNoParts [] rfl).1 rfl rfl

/-! ### Absent structure information -/

/-- C9: for a message whose structure information is absent, text extraction
yields the empty string and attachment extraction the empty list (with no
failure), and a simple-format message with a `HEADER` section still formats
successfully, with empty text fields and no binary property.  The `getParts`
helper of this path lives in the `@n8n/imap` package outside the sampled
sources and is modelled from the spec as yielding no parts for an absent
structure. -/
theorem absent_struct_yields_empty_extraction (m : Message)
    (hstruct : m.struct = none) (parts : List MimePart) (subtype : String) :
    getText parts m subtype = ""
    ∧ getAttachment parts m = some []
    ∧ (∀ (cfg : NodeConfig) (headerPart : FetchedPart),
        cfg.format = EmailFormat.simple →
        (m.parts.filter (fun part => part.which == "HEADER")).head? = some headerPart →
        formatMessage cfg m = Except.ok
          { json := EmailJson.simple "" ""
              (distributeHeaders headerPart.headerBody).1
              (distributeHeaders headerPart.headerBody).2,
            binary := none }) := by
  have ht : ∀ (ps : List MimePart) (st : String), getText ps m st = "" := by
    intro ps st
    simp [getText, hstruct]
  have ha : ∀ (ps : List MimePart), getAttachment ps m = some [] := by
    intro ps
    simp [getAttachment, hstruct]
  refine ⟨ht parts subtype, ha parts, ?_⟩
  intro cfg headerPart hfmt hhead
  simp only [formatMessage, hfmt, formatSimple, hhead, ht, ha]
  cases cfg.downloadAttachments <;> simp

/-- Witness for C9 at a concrete message with absent structure and a header
section. -/
theorem absent_struct_yields_empty_extraction_witness :
    getText [] msgHeaderOnly "html" = ""
    ∧ getAttachment [] msgHeaderOnly = some []
    ∧ formatMessage cfgSimpleDownload msgHeaderOnly = Except.ok
        { json := EmailJson.simple "" ""
            (distributeHeaders [("subject", ["hi"])]).1
            (distributeHeaders [("subject", ["hi"])]).2,
          binary := none } := by
  obtain ⟨h1, h2, h3⟩ := absent_struct_yields_empty_extraction msgHeaderOnly rfl [] "html"
  exact ⟨h1, h2, h3 cfgSimpleDownload ⟨"HEADER", "", [("subject", ["hi"])]⟩ rfl rfl⟩

/-! ### Binary property and attachment keying -/

theorem keyed_enum_map_fst {α β : Type} (l : List α) (pfx : String)
    (f : Nat × α → β) :
    ((l.enum.map (fun p => (pfx ++ toString p.1, f p))).map Prod.fst) =
      (List.range l.length).map (fun i => pfx ++ toString i) := by
  rw [List.map_map, ← List.enum_map_fst, List.map_map]
  rfl

/-- C10: in the resolved format (`parseRawEmail`) and in the simple format
with attachment download enabled, the emitted item's `binary` property is
present exactly when at least one attachment was extracted; when present,
its keys are `prefix + index` with zero-based indexes in extraction order. -/
theorem binary_present_iff_attachments :
    (∀ (pe : ParsedEmail) (pfx : String),
        ((parseRawEmail pe pfx).binary).isSome = !pe.attachments.isEmpty)
    ∧ (∀ (pe : ParsedEmail) (pfx : String) (b : List (String × IBinaryData)),
        (parseRawEmail pe pfx).binary = some b →
        b.map Prod.fst =
          (List.range pe.attachments.length).map (fun i => pfx ++ toString i))
    ∧ (∀ (cfg : NodeConfig) (m : Message) (atts : List IBinaryData)
        (r : INodeExecutionData),
        cfg.format = EmailFormat.simple → cfg.downloadAttachments = true →
        getAttachment (getParts m.struct) m = some atts →
        formatMessage cfg m = Except.ok r →
        (r.binary.isSome = !atts.isEmpty)
        ∧ (∀ b, r.binary = some b →
            b.map Prod.fst =
              (List.range atts.length).map
                (fun i => cfg.attachmentPfx ++ toString i))) := by
  refine ⟨?_, ?_, ?_⟩
  · intro pe pfx
    unfold parseRawEmail
    cases h : pe.attachments with
    | nil => simp [h]
    | cons a rest => simp [h]
  · intro pe pfx b hb
    simp only [parseRawEmail] at hb
    split at hb
    · cases hb
      exact keyed_enum_map_fst pe.attachments pfx _
    · exact Option.noConfusion hb
  · intro cfg m atts r hfmt hdl hatt hok
    simp only [formatMessage, hfmt, formatSimple, hdl, if_true] at hok
    cases hh : (m.parts.filter (fun part => part.which == "HEADER")).head? with
    | none => rw [hh] at hok; exact Except.noConfusion hok
    | some headerPart =>
      rw [hh, hatt] at hok
      cases hok
      constructor
      · cases atts with
        | nil => simp
        | cons a rest => simp
      · intro b hb
        simp only at hb
        split at hb
        · cases hb
          exact keyed_enum_map_fst atts cfg.attachmentPfx _
        · exact Option.noConfusion hb

def peTwoAtts : ParsedEmail :=
  ⟨[("subject", "Subject: hi")], [⟨"c1", "f1", "text"⟩, ⟨"c2", "f2", "text"⟩]⟩

def msgWithAtt : Message :=
  ⟨4, some [⟨"APPLICATION", "PDF", some "attachment", "file.pdf", some "data"⟩],
    [⟨"HEADER", "", [("subject", ["hi"])]⟩]⟩

def simpleAttResult : INodeExecutionData :=
  { json := EmailJson.simple "" "" [("subject", "hi")] [],
    binary := some [("attachment_0", ⟨"data", "file.pdf", none⟩)] }

/-- Witness for C10 at concrete inputs: a resolved item with two decoded
attachments, and a simple-format item with one extracted attachment. -/
theorem binary_present_iff_attachments_witness :
    ((parseRawEmail peTwoAtts "attachment_").binary).isSome =
        !peTwoAtts.attachments.isEmpty
    ∧ ([("attachment_0", prepareBinaryData "c1" "f1" (some "text")),
        ("attachment_1", prepareBinaryData "c2" "f2" (some "text"))].map Prod.fst =
          (List.range peTwoAtts.attachments.length).map
            (fun i => "attachment_" ++ toString i))
    ∧ (simpleAttResult.binary.isSome =
        !([(⟨"data", "file.pdf", none⟩ : IBinaryData)].isEmpty)) := by
  refine ⟨binary_present_iff_attachments.1 peTwoAtts "attachment_",
    binary_present_iff_attachments.2.1 peTwoAtts "attachment_" _ (by decide),
    (binary_present_iff_attachments.2.2 cfgSimpleDownload msgWithAtt
      [⟨"data", "file.pdf", none⟩] simpleAttResult rfl rfl rfl rfl).1⟩

end EmailReadImap
